import Mathlib

/-!
Verification of the worker core of the rag-pdf-q-a-saas repository.

Python strings are modelled as lists of characters (`PyStr`), Python dicts
with known keys as structures whose optional fields model `dict.get`
defaulting, fallible Python code as `Except String` values (exceptions carry
their message string), and the external collaborators (blob store, ClamAV,
the OpenAI provider, the database and the NATS bus) as explicit parameters
or recorded action lists.
-/

namespace RagPdf

/-- Python `str` modelled as a list of characters. -/
abbrev PyStr := List Char

/-- The paragraph delimiter `"\n\n"` used by `IngestWorker._split_text_into_pages`. -/
def paraSep : PyStr := ['\n', '\n']

/-- Helper used to state `str.split`: prepend a character to the first piece. -/
def consHead (c : Char) : List PyStr → List PyStr
  | [] => [[c]]
  | p :: ps => (c :: p) :: ps

/-- Embedding of Python `text.split('\n\n')`: split at each leftmost
non-overlapping occurrence of the two-newline separator, keeping empty
pieces, as Python `str.split` with an explicit separator does. -/
def pySplit : PyStr → List PyStr
  | [] => [[]]
  | c :: rest =>
    match rest with
    | [] => [[c]]
    | c2 :: rest2 =>
      if c = '\n' ∧ c2 = '\n' then
        [] :: pySplit rest2
      else
        consHead c (pySplit (c2 :: rest2))

/-- Embedding of Python `sep.join(pieces)`. -/
def pyJoin (s : PyStr) : List PyStr → PyStr
  | [] => []
  | [x] => x
  | x :: y :: xs => x ++ s ++ pyJoin s (y :: xs)

theorem pySplit_ne_nil : ∀ s : PyStr, pySplit s ≠ [] := by
  intro s
  induction s with
  | nil => simp [pySplit]
  | cons c rest ih =>
    cases rest with
    | nil => simp [pySplit]
    | cons c2 rest2 =>
      rw [pySplit]
      split
      · simp
      · rcases h : pySplit (c2 :: rest2) with _ | ⟨p, ps⟩ <;> simp [consHead]

theorem pyJoin_cons (s : PyStr) (x : PyStr) (l : List PyStr) (h : l ≠ []) :
    pyJoin s (x :: l) = x ++ s ++ pyJoin s l := by
  cases l with
  | nil => exact absurd rfl h
  | cons y ys => rfl

theorem pyJoin_consHead (s : PyStr) (c : Char) (l : List PyStr) (h : l ≠ []) :
    pyJoin s (consHead c l) = c :: pyJoin s l := by
  cases l with
  | nil => exact absurd rfl h
  | cons p ps =>
    cases ps with
    | nil => rfl
    | cons q qs => simp [consHead, pyJoin]

/-- `'\n\n'.join(text.split('\n\n')) = text`: the split loses nothing. -/
theorem pyJoin_pySplit : ∀ s : PyStr, pyJoin paraSep (pySplit s) = s := by
  intro s
  induction s using pySplit.induct with
  | case1 => simp [pySplit, pyJoin]
  | case2 c => simp [pySplit, pyJoin]
  | case3 c c2 rest2 hcond ih =>
    obtain ⟨hc, hc2⟩ := hcond
    subst hc; subst hc2
    rw [pySplit, if_pos ⟨rfl, rfl⟩,
      pyJoin_cons _ _ _ (pySplit_ne_nil rest2), ih]
    rfl
  | case4 c c2 rest2 hcond ih =>
    rw [pySplit, if_neg hcond,
      pyJoin_consHead _ _ _ (pySplit_ne_nil (c2 :: rest2)), ih]

/-- A page/chunk produced by `IngestWorker._split_text_into_pages`:
the dict `{"page_number": ..., "content": ...}`. -/
structure Page where
  page_number : Nat
  content : PyStr
deriving DecidableEq

/-- The accumulation loop of `IngestWorker._split_text_into_pages`:
state is (`pages`, `current_page`, `current_length`), the bound is the
hard-coded `max_page_length = 2000`. -/
def buildPages : List PyStr → List Page → List PyStr → Nat → List Page
  | [], pages, cur, _ =>
    if cur = [] then pages else pages ++ [⟨pages.length, pyJoin paraSep cur⟩]
  | p :: rest, pages, cur, curLen =>
    if curLen + p.length > 2000 ∧ cur ≠ [] then
      buildPages rest (pages ++ [⟨pages.length, pyJoin paraSep cur⟩]) [p] p.length
    else
      buildPages rest pages (cur ++ [p]) (curLen + p.length)

/-- Embedding of `IngestWorker._split_text_into_pages`. -/
def split_text_into_pages (text : PyStr) : List Page :=
  buildPages (pySplit text) [] [] 0

/-- Total character count of a list of paragraphs (what `current_length`
tracks: the `"\n\n"` joiners are not counted). -/
def sumLen (l : List PyStr) : Nat := (l.map List.length).sum

/-- The same loop as `buildPages`, recording which paragraphs go into each
page instead of the joined content. -/
def buildGroups : List PyStr → List PyStr → List (List PyStr)
  | [], cur => if cur = [] then [] else [cur]
  | p :: rest, cur =>
    if sumLen cur + p.length > 2000 ∧ cur ≠ [] then
      cur :: buildGroups rest [p]
    else
      buildGroups rest (cur ++ [p])

/-- Pages built from paragraph groups, numbered consecutively from `n`. -/
def pagesFrom : Nat → List (List PyStr) → List Page
  | _, [] => []
  | n, g :: gs => ⟨n, pyJoin paraSep g⟩ :: pagesFrom (n + 1) gs

theorem sumLen_append (a b : List PyStr) : sumLen (a ++ b) = sumLen a + sumLen b := by
  simp [sumLen]

theorem sumLen_singleton (p : PyStr) : sumLen [p] = p.length := by
  simp [sumLen]

theorem pagesFrom_length (n : Nat) (gs : List (List PyStr)) :
    (pagesFrom n gs).length = gs.length := by
  induction gs generalizing n with
  | nil => rfl
  | cons g gs ih => simp [pagesFrom, ih]

theorem buildPages_eq_groups :
    ∀ (paras : List PyStr) (pages : List Page) (cur : List PyStr),
      buildPages paras pages cur (sumLen cur) =
        pages ++ pagesFrom pages.length (buildGroups paras cur) := by
  intro paras
  induction paras with
  | nil =>
    intro pages cur
    by_cases h : cur = [] <;> simp [buildPages, buildGroups, pagesFrom, h]
  | cons p rest ih =>
    intro pages cur
    rw [buildPages, buildGroups]
    by_cases h : sumLen cur + p.length > 2000 ∧ cur ≠ []
    · rw [if_pos h, if_pos h]
      have h1 : p.length = sumLen [p] := (sumLen_singleton p).symm
      rw [h1, ih]
      simp [pagesFrom]
    · rw [if_neg h, if_neg h]
      have h1 : sumLen cur + p.length = sumLen (cur ++ [p]) := by
        rw [sumLen_append, sumLen_singleton]
      rw [h1, ih]

theorem flatten_buildGroups :
    ∀ (paras : List PyStr) (cur : List PyStr),
      (buildGroups paras cur).flatten = cur ++ paras := by
  intro paras
  induction paras with
  | nil =>
    intro cur
    by_cases h : cur = [] <;> simp [buildGroups, h]
  | cons p rest ih =>
    intro cur
    rw [buildGroups]
    by_cases h : sumLen cur + p.length > 2000 ∧ cur ≠ []
    · rw [if_pos h]
      simp [ih]
    · rw [if_neg h]
      simp [ih]

theorem mem_buildGroups_ne_nil :
    ∀ (paras : List PyStr) (cur : List PyStr) (g : List PyStr),
      g ∈ buildGroups paras cur → g ≠ [] := by
  intro paras
  induction paras with
  | nil =>
    intro cur g hg
    by_cases h : cur = []
    · simp [buildGroups, h] at hg
    · simp [buildGroups, h] at hg
      simpa [hg] using h
  | cons p rest ih =>
    intro cur g hg
    rw [buildGroups] at hg
    by_cases h : sumLen cur + p.length > 2000 ∧ cur ≠ []
    · rw [if_pos h] at hg
      rcases List.mem_cons.mp hg with h1 | h1
      · simpa [h1] using h.2
      · exact ih [p] g h1
    · rw [if_neg h] at hg
      exact ih (cur ++ [p]) g hg

theorem mem_buildGroups_bound :
    ∀ (paras : List PyStr) (cur : List PyStr),
      (cur.length ≤ 1 ∨ sumLen cur ≤ 2000) →
      ∀ g ∈ buildGroups paras cur, g.length = 1 ∨ sumLen g ≤ 2000 := by
  intro paras
  induction paras with
  | nil =>
    intro cur hcur g hg
    by_cases h : cur = []
    · simp [buildGroups, h] at hg
    · simp [buildGroups, h] at hg
      subst hg
      rcases hcur with h1 | h1
      · left
        have : 0 < g.length := List.length_pos.mpr h
        omega
      · right; exact h1
  | cons p rest ih =>
    intro cur hcur g hg
    rw [buildGroups] at hg
    by_cases h : sumLen cur + p.length > 2000 ∧ cur ≠ []
    · rw [if_pos h] at hg
      rcases List.mem_cons.mp hg with h1 | h1
      · subst h1
        rcases hcur with h2 | h2
        · left
          have : 0 < g.length := List.length_pos.mpr h.2
          omega
        · right; exact h2
      · exact ih [p] (Or.inl (by simp)) g h1
    · rw [if_neg h] at hg
      refine ih (cur ++ [p]) ?_ g hg
      by_cases hc : cur = []
      · left; simp [hc]
      · right
        have h2 : sumLen cur + p.length ≤ 2000 := by
          rcases not_and_or.mp h with h3 | h3
          · omega
          · exact absurd hc (by simpa using h3)
        rw [sumLen_append, sumLen_singleton]
        exact h2

theorem pyJoin_length (s : PyStr) :
    ∀ l : List PyStr, l ≠ [] →
      (pyJoin s l).length = sumLen l + s.length * (l.length - 1) := by
  intro l
  induction l with
  | nil => intro h; exact absurd rfl h
  | cons x xs ih =>
    intro _
    cases xs with
    | nil => simp [pyJoin, sumLen]
    | cons y ys =>
      rw [pyJoin_cons _ _ _ (by simp)]
      have ihh := ih (by simp)
      simp only [List.length_append, ihh, List.length_cons, Nat.add_sub_cancel]
      have h1 : sumLen (x :: y :: ys) = x.length + sumLen (y :: ys) := by
        simp [sumLen]
      rw [h1]
      ring

theorem pyJoin_append (s : PyStr) :
    ∀ (a b : List PyStr), a ≠ [] → b ≠ [] →
      pyJoin s (a ++ b) = pyJoin s a ++ s ++ pyJoin s b := by
  intro a
  induction a with
  | nil => intro b h _; exact absurd rfl h
  | cons x xs ih =>
    intro b _ hb
    cases xs with
    | nil =>
      simp only [List.singleton_append, pyJoin]
      rw [pyJoin_cons _ _ _ hb]
    | cons y ys =>
      have h1 : (y :: ys) ++ b ≠ [] := by simp
      rw [List.cons_append, pyJoin_cons s x ((y :: ys) ++ b) h1, ih b (by simp) hb,
        pyJoin_cons s x (y :: ys) (by simp)]
      simp [List.append_assoc]

theorem flatten_ne_nil_of_ne (gs : List (List PyStr)) (hne : gs ≠ [])
    (h : ∀ g ∈ gs, g ≠ []) : gs.flatten ≠ [] := by
  cases gs with
  | nil => exact absurd rfl hne
  | cons g gs =>
    have hg : g ≠ [] := h g (by simp)
    simp only [List.flatten_cons]
    intro hcontra
    exact hg (List.append_eq_nil.mp hcontra).1

theorem pyJoin_map_flatten (s : PyStr) :
    ∀ gs : List (List PyStr), (∀ g ∈ gs, g ≠ []) →
      pyJoin s (gs.map (pyJoin s)) = pyJoin s gs.flatten := by
  intro gs
  induction gs with
  | nil => intro _; rfl
  | cons g gs ih =>
    intro h
    cases hgs : gs with
    | nil => simp [pyJoin]
    | cons g2 gs2 =>
      subst hgs
      have hg : g ≠ [] := h g (by simp)
      have htail : ∀ x ∈ g2 :: gs2, x ≠ [] := fun x hx => h x (by simp [hx])
      have hflat : (g2 :: gs2).flatten ≠ [] :=
        flatten_ne_nil_of_ne _ (by simp) htail
      calc pyJoin s (List.map (pyJoin s) (g :: g2 :: gs2))
          = pyJoin s g ++ s ++ pyJoin s (List.map (pyJoin s) (g2 :: gs2)) :=
            pyJoin_cons s _ _ (by simp)
        _ = pyJoin s g ++ s ++ pyJoin s (g2 :: gs2).flatten := by rw [ih htail]
        _ = pyJoin s (g ++ (g2 :: gs2).flatten) :=
            (pyJoin_append s g (g2 :: gs2).flatten hg hflat).symm
        _ = pyJoin s (g :: g2 :: gs2).flatten := by
              rw [show (g :: g2 :: gs2).flatten = g ++ (g2 :: gs2).flatten from
                List.flatten_cons]

theorem pagesFrom_map_content (n : Nat) (gs : List (List PyStr)) :
    (pagesFrom n gs).map Page.content = gs.map (pyJoin paraSep) := by
  induction gs generalizing n with
  | nil => rfl
  | cons g gs ih => simp [pagesFrom, ih]

theorem pagesFrom_map_page_number (n : Nat) (gs : List (List PyStr)) :
    (pagesFrom n gs).map Page.page_number = List.range' n gs.length := by
  induction gs generalizing n with
  | nil => rfl
  | cons g gs ih => simp [pagesFrom, ih, List.range']

theorem mem_pagesFrom (n : Nat) (gs : List (List PyStr)) (page : Page) :
    page ∈ pagesFrom n gs → ∃ g ∈ gs, page.content = pyJoin paraSep g := by
  induction gs generalizing n with
  | nil => intro h; simp [pagesFrom] at h
  | cons g gs ih =>
    intro h
    rcases List.mem_cons.mp h with h1 | h1
    · exact ⟨g, by simp, by rw [h1]⟩
    · obtain ⟨g2, hg2, hc⟩ := ih (n + 1) h1
      exact ⟨g2, by simp [hg2], hc⟩

theorem split_text_into_pages_eq (text : PyStr) :
    split_text_into_pages text = pagesFrom 0 (buildGroups (pySplit text) []) := by
  have h0 : (0 : Nat) = sumLen [] := by simp [sumLen]
  rw [split_text_into_pages, h0, buildPages_eq_groups]
  rfl

/-- `text.split('\n\n')` on newline-free text is the whole text as one piece. -/
theorem pySplit_no_newline (xs : PyStr) (h : '\n' ∉ xs) : pySplit xs = [xs] := by
  induction xs with
  | nil => rfl
  | cons c rest ih =>
    have hc : c ≠ '\n' := fun hcontra => h (by simp [hcontra])
    cases rest with
    | nil => rfl
    | cons c2 rest2 =>
      rw [pySplit, if_neg (fun hcontra => hc hcontra.1),
        ih (fun hcontra => h (List.mem_cons_of_mem c hcontra))]
      rfl

/-- Splitting `xs ++ "\n\n" ++ r` peels off the newline-free piece `xs`. -/
theorem pySplit_append_sep (xs r : PyStr) (h : '\n' ∉ xs) :
    pySplit (xs ++ paraSep ++ r) = xs :: pySplit r := by
  induction xs with
  | nil =>
    show pySplit ('\n' :: '\n' :: r) = [] :: pySplit r
    rw [pySplit]
    cases r with
    | nil => rfl
    | cons c3 rest3 => rw [if_pos ⟨rfl, rfl⟩]
  | cons c xs ih =>
    have hc : c ≠ '\n' := fun hcontra => h (by simp [hcontra])
    have htail : '\n' ∉ xs := fun hcontra => h (List.mem_cons_of_mem c hcontra)
    show pySplit (c :: (xs ++ paraSep ++ r)) = (c :: xs) :: pySplit r
    rcases hx : xs ++ paraSep ++ r with _ | ⟨c2, rest2⟩
    · exact absurd hx (by simp [paraSep])
    · rw [pySplit, if_neg (fun hcontra => hc hcontra.1), ← hx, ih htail]
      rfl

/-- Claim C2 as stated: every chunk's content is within the 2000-character
bound, unless the chunk is a single (oversize) paragraph of the text. -/
def claimC2 (text : PyStr) : Prop :=
  ∀ page ∈ split_text_into_pages text,
    page.content.length ≤ 2000 ∨ page.content ∈ pySplit text

/-- 999 characters `a`: one paragraph of the C2 counterexample text. -/
def bigA : PyStr := List.replicate 999 'a'

/-- 1000 characters `b`: the other paragraph of the C2 counterexample text. -/
def bigB : PyStr := List.replicate 1000 'b'

/-- Counterexample text for C2: two paragraphs of 999 and 1000 characters.
`current_length` ignores the two-character `"\n\n"` joiners, so both
paragraphs land in one chunk whose content has 2001 characters. -/
def textC2 : PyStr := bigA ++ paraSep ++ bigB

theorem pySplit_textC2 : pySplit textC2 = [bigA, bigB] := by
  have hA : '\n' ∉ bigA := by
    intro h
    have := List.eq_of_mem_replicate h
    simp at this
  have hB : '\n' ∉ bigB := by
    intro h
    have := List.eq_of_mem_replicate h
    simp at this
  rw [textC2, pySplit_append_sep bigA bigB hA, pySplit_no_newline bigB hB]

theorem split_textC2 :
    split_text_into_pages textC2 = [⟨0, bigA ++ paraSep ++ bigB⟩] := by
  have hA : bigA.length = 999 := by rw [bigA, List.length_replicate]
  have hB : bigB.length = 1000 := by rw [bigB, List.length_replicate]
  rw [split_text_into_pages, pySplit_textC2, buildPages,
    if_neg (by simp), buildPages, if_neg (by simp [hA, hB]), buildPages,
    if_neg (by simp)]
  simp [pyJoin]

/-- C2: the claim fails on the code. The splitter's `current_length` counts
only paragraph characters, not the two-character `"\n\n"` joiners it later
inserts, so a chunk of two paragraphs of 999 and 1000 characters has
2001-character content while being no single paragraph of the text. -/
theorem C2_counterexample : ¬ claimC2 textC2 := by
  intro h
  have hmem : (⟨0, bigA ++ paraSep ++ bigB⟩ : Page) ∈ split_text_into_pages textC2 := by
    rw [split_textC2]; simp
  have hlen : (bigA ++ paraSep ++ bigB).length = 2001 := by
    rw [List.length_append, List.length_append, bigA, bigB,
      List.length_replicate, List.length_replicate]
    rfl
  rcases h _ hmem with h1 | h1
  · simp only [hlen] at h1
    omega
  · rw [pySplit_textC2] at h1
    rcases List.mem_cons.mp h1 with h2 | h2
    · have hc := congrArg List.length h2
      rw [hlen, bigA, List.length_replicate] at hc
      exact absurd hc (by decide)
    · have h3 : bigA ++ paraSep ++ bigB = bigB := by simpa using h2
      have hc := congrArg List.length h3
      rw [hlen, bigB, List.length_replicate] at hc
      exact absurd hc (by decide)

/-- C2 (amended): every chunk is the `"\n\n"`-join of a nonempty consecutive
block of the text's paragraphs, and that block is either a single (possibly
oversize) paragraph kept whole, or has at most 2000 characters of paragraph
text, so its joined content is bounded by `2000 + 2 * (number of paragraphs
in the chunk - 1)` — the nominal bound plus the length of the re-inserted
joiners, which the loop's `current_length` does not count. -/
theorem C2_chunk_bound_amended (text : PyStr) :
    ∀ page ∈ split_text_into_pages text,
      ∃ g : List PyStr, g ≠ [] ∧
        (∃ pre post, pre ++ g ++ post = pySplit text) ∧
        page.content = pyJoin paraSep g ∧
        (g.length = 1 ∨ (sumLen g ≤ 2000 ∧
          page.content.length ≤ 2000 + 2 * (g.length - 1))) := by
  intro page hpage
  rw [split_text_into_pages_eq] at hpage
  obtain ⟨g, hgmem, hcontent⟩ := mem_pagesFrom 0 _ page hpage
  have hne : g ≠ [] := mem_buildGroups_ne_nil (pySplit text) [] g hgmem
  refine ⟨g, hne, ?_, hcontent, ?_⟩
  · obtain ⟨s, t, hst⟩ := List.append_of_mem hgmem
    refine ⟨s.flatten, t.flatten, ?_⟩
    have := flatten_buildGroups (pySplit text) []
    rw [hst] at this
    simpa [List.flatten_append, List.append_assoc] using this
  · rcases mem_buildGroups_bound (pySplit text) [] (by simp) g hgmem with h1 | h1
    · exact Or.inl h1
    · refine Or.inr ⟨h1, ?_⟩
      rw [hcontent, pyJoin_length paraSep g hne,
        show paraSep.length = 2 from rfl]
      omega

/-- Witness for the amended C2 at the one-character text `"x"`. -/
theorem C2_chunk_bound_amended_witness :
    ∃ g : List PyStr, g ≠ [] ∧
      (∃ pre post, pre ++ g ++ post = pySplit ['x']) ∧
      (Page.mk 0 ['x']).content = pyJoin paraSep g ∧
      (g.length = 1 ∨ (sumLen g ≤ 2000 ∧
        (Page.mk 0 ['x']).content.length ≤ 2000 + 2 * (g.length - 1))) :=
  C2_chunk_bound_amended ['x'] ⟨0, ['x']⟩ (by decide)

/-- Modelled from the spec: `DatabaseService.create_chunks` (a TODO stub in
the source) — "Chunks are created once per successful ingestion and replaced
wholesale if ingestion is retried (never partially updated)". The database
is a map from document id to its chunk list; creating chunks for a document
replaces that document's chunk set wholesale and touches no other document. -/
def create_chunks (db : Nat → List Page) (document_id : Nat)
    (chunks : List Page) : Nat → List Page :=
  fun d => if d = document_id then chunks else db d

/-- The chunk-producing part of one `IngestJob` run: extract text, split it
into pages, and persist the result for the document. -/
def run_ingest_chunks (db : Nat → List Page) (document_id : Nat)
    (text : PyStr) : Nat → List Page :=
  create_chunks db document_id (split_text_into_pages text)

/-- The empty chunk store, used as a concrete starting state. -/
def emptyStore : Nat → List Page := fun _ => []

/-- C9: re-running the same `IngestJob` (same document, hence the same
extracted text) is idempotent: the deterministic splitter reproduces the
same chunk list with the same contents and the same sequential
`page_number` ordering `0..N-1`, and the second run's wholesale replacement
leaves the stored chunk set exactly as after the first run, duplicating
nothing and touching no other document. -/
theorem C9_ingest_idempotent (db : Nat → List Page) (d : Nat) (text : PyStr) :
    run_ingest_chunks (run_ingest_chunks db d text) d text =
      run_ingest_chunks db d text ∧
    run_ingest_chunks db d text d = split_text_into_pages text ∧
    (split_text_into_pages text).map Page.page_number =
      List.range (split_text_into_pages text).length ∧
    (∀ d2, d2 ≠ d → run_ingest_chunks db d text d2 = db d2) := by
  refine ⟨?_, ?_, ?_, ?_⟩
  · funext x
    by_cases h : x = d <;> simp [run_ingest_chunks, create_chunks, h]
  · simp [run_ingest_chunks, create_chunks]
  · rw [split_text_into_pages_eq, pagesFrom_map_page_number, pagesFrom_length,
      List.range_eq_range']
  · intro d2 h
    simp [run_ingest_chunks, create_chunks, h]

/-- Witness for C9: the run for document 0 leaves document 1 untouched. -/
theorem C9_ingest_idempotent_witness :
    run_ingest_chunks emptyStore 0 ['x'] 1 = emptyStore 1 :=
  (C9_ingest_idempotent emptyStore 0 ['x']).2.2.2 1 (by decide)

/-- C10: joining the chunk contents back with `"\n\n"`, in output order,
reproduces the input text exactly — every blank-line-delimited paragraph is
assigned to exactly one chunk, none lost, duplicated or reordered. -/
theorem C10_chunks_rejoin_to_text (text : PyStr) :
    pyJoin paraSep ((split_text_into_pages text).map Page.content) = text := by
  rw [split_text_into_pages_eq, pagesFrom_map_content,
    pyJoin_map_flatten paraSep _ (mem_buildGroups_ne_nil (pySplit text) []),
    flatten_buildGroups]
  simpa using pyJoin_pySplit text

/-- A search result dict as consumed by `QAWorker._combine_results`:
`result.get("chunk_id")` may be absent (`None`), hence an `Option` key. -/
structure SearchResult where
  chunk_id : Option Nat
  score : ℚ
deriving DecidableEq

/-- The deduplication loop of `QAWorker._combine_results`: walk the combined
list, keep a `seen` set of chunk ids, append a result only if its id is new. -/
def dedupAux : List SearchResult → List (Option Nat) → List SearchResult
  | [], _ => []
  | r :: rest, seen =>
    if r.chunk_id ∈ seen then dedupAux rest seen
    else r :: dedupAux rest (r.chunk_id :: seen)

/-- Embedding of `QAWorker._combine_results`: concatenate the vector-pass
results before the BM25 results, then deduplicate by chunk id. -/
def combine_results (vector_results bm25_results : List SearchResult) :
    List SearchResult :=
  dedupAux (vector_results ++ bm25_results) []

/-- The candidate-list core of `QAWorker._retrieve_chunks`: combine the two
passes and truncate to `max_results`. -/
def retrieve_chunks (vector_results bm25_results : List SearchResult)
    (max_results : Nat) : List SearchResult :=
  (combine_results vector_results bm25_results).take max_results

theorem dedupAux_key_not_seen :
    ∀ (l : List SearchResult) (seen : List (Option Nat)) (r : SearchResult),
      r ∈ dedupAux l seen → r.chunk_id ∉ seen := by
  intro l
  induction l with
  | nil => intro seen r h; simp [dedupAux] at h
  | cons x rest ih =>
    intro seen r h
    rw [dedupAux] at h
    by_cases hx : x.chunk_id ∈ seen
    · rw [if_pos hx] at h
      exact ih seen r h
    · rw [if_neg hx] at h
      rcases List.mem_cons.mp h with h1 | h1
      · subst h1; exact hx
      · intro hcontra
        exact ih (x.chunk_id :: seen) r h1 (List.mem_cons_of_mem _ hcontra)

theorem dedupAux_nodup_keys :
    ∀ (l : List SearchResult) (seen : List (Option Nat)),
      ((dedupAux l seen).map SearchResult.chunk_id).Nodup := by
  intro l
  induction l with
  | nil => intro seen; simp [dedupAux]
  | cons x rest ih =>
    intro seen
    rw [dedupAux]
    by_cases hx : x.chunk_id ∈ seen
    · rw [if_pos hx]; exact ih seen
    · rw [if_neg hx]
      refine List.nodup_cons.mpr ⟨?_, ih (x.chunk_id :: seen)⟩
      intro hcontra
      obtain ⟨r, hr, hkey⟩ := List.mem_map.mp hcontra
      exact dedupAux_key_not_seen rest (x.chunk_id :: seen) r hr
        (by simp [hkey])

theorem dedupAux_first_occurrence :
    ∀ (l : List SearchResult) (seen : List (Option Nat)) (r : SearchResult),
      r ∈ dedupAux l seen →
        l.find? (fun x => decide (x.chunk_id = r.chunk_id)) = some r := by
  intro l
  induction l with
  | nil => intro seen r h; simp [dedupAux] at h
  | cons x rest ih =>
    intro seen r h
    rw [dedupAux] at h
    by_cases hx : x.chunk_id ∈ seen
    · rw [if_pos hx] at h
      have hnot := dedupAux_key_not_seen rest seen r h
      have hne : x.chunk_id ≠ r.chunk_id := fun hcontra => hnot (hcontra ▸ hx)
      rw [List.find?_cons_of_neg _ (by simpa using hne)]
      exact ih seen r h
    · rw [if_neg hx] at h
      rcases List.mem_cons.mp h with h1 | h1
      · subst h1
        rw [List.find?_cons_of_pos _ (by simp)]
      · have hnot := dedupAux_key_not_seen rest (x.chunk_id :: seen) r h1
        have hne : x.chunk_id ≠ r.chunk_id := fun hcontra => hnot (by simp [hcontra])
        rw [List.find?_cons_of_neg _ (by simpa using hne)]
        exact ih (x.chunk_id :: seen) r h1

/-- C4: hybrid retrieval returns at most `max_results` candidates; no two
returned candidates share a chunk id; and every returned candidate is the
first occurrence of its chunk id in the vector-pass-then-lexical-pass
concatenation, so a chunk id present in both passes keeps the vector-pass
candidate with its score. -/
theorem C4_hybrid_retrieval (vector_results bm25_results : List SearchResult)
    (max_results : Nat) :
    (retrieve_chunks vector_results bm25_results max_results).length ≤ max_results ∧
    ((retrieve_chunks vector_results bm25_results max_results).map
      SearchResult.chunk_id).Nodup ∧
    ∀ r ∈ retrieve_chunks vector_results bm25_results max_results,
      (vector_results ++ bm25_results).find?
        (fun x => decide (x.chunk_id = r.chunk_id)) = some r := by
  refine ⟨?_, ?_, ?_⟩
  · rw [retrieve_chunks, List.length_take]
    exact min_le_left _ _
  · rw [retrieve_chunks]
    exact ((List.take_sublist _ _).map SearchResult.chunk_id).nodup
      (dedupAux_nodup_keys _ [])
  · intro r hr
    exact dedupAux_first_occurrence _ [] r
      (List.mem_of_mem_take (by simpa [retrieve_chunks] using hr))

/-- Concrete vector-pass result list for the C4 witness. -/
def vecResults : List SearchResult := [⟨some 1, 5⟩]

/-- Concrete lexical-pass result list for the C4 witness: chunk 1 again
(with a different score) plus chunk 2. -/
def bm25Results : List SearchResult := [⟨some 1, 3⟩, ⟨some 2, 7⟩]

/-- Witness for C4: with chunk 1 in both passes, the kept candidate for
chunk 1 is the vector-pass one with score 5. -/
theorem C4_hybrid_retrieval_witness :
    (vecResults ++ bm25Results).find?
      (fun x => decide (x.chunk_id = (⟨some 1, 5⟩ : SearchResult).chunk_id)) =
      some ⟨some 1, 5⟩ :=
  (C4_hybrid_retrieval vecResults bm25Results 5).2.2 ⟨some 1, 5⟩ (by decide)

/-- A ranked chunk dict as consumed by `QAWorker._create_citations`: every
field is read with `chunk.get(key, default)`, so every field may be absent. -/
structure ChunkDict where
  document_id : Option Nat
  page_number : Option Int
  chunk_index : Option Nat
  content : Option PyStr
  score : Option ℚ
deriving DecidableEq

/-- A citation dict as built by `QAWorker._create_citations`. -/
structure CitationDict where
  document_id : Option Nat
  page_number : Int
  chunk_index : Nat
  content : PyStr
  score : ℚ
deriving DecidableEq

/-- The citation built from one chunk: each field is `chunk.get(key, default)`
with defaults `None`, `0`, `0`, `""`, `0.0`. -/
def mkCitation (c : ChunkDict) : CitationDict :=
  ⟨c.document_id, c.page_number.getD 0, c.chunk_index.getD 0,
    c.content.getD [], c.score.getD 0⟩

/-- Embedding of `QAWorker._create_citations`: the loop appends one citation
per ranked chunk; the generated answer text is not an input at all. -/
def create_citations : List ChunkDict → List CitationDict
  | [] => []
  | c :: rest => mkCitation c :: create_citations rest

/-- The ordinal marker `[n]` as it would appear in an answer text. -/
def marker (n : Nat) : PyStr := '[' :: (Nat.toDigits 10 n ++ [']'])

/-- Claim C1 as stated: every citation in the returned list has a non-empty
content excerpt, a page number `≥ 0`, and its 1-based ordinal appears as a
`[n]` marker somewhere in the generated answer text (so uncited ranked
chunks and out-of-range ordinals yield no citation). -/
def claimC1 (answer : PyStr) (chunks : List ChunkDict) : Prop :=
  ∀ (i : Nat) (cit : CitationDict),
    (create_citations chunks)[i]? = some cit →
    cit.content ≠ [] ∧ 0 ≤ cit.page_number ∧
    ∃ pre post, pre ++ marker (i + 1) ++ post = answer

/-- A ranked chunk dict carrying no fields at all, as `dict.get` tolerates. -/
def emptyChunk : ChunkDict := ⟨none, none, none, none, none⟩

/-- C1: the claim fails on the code. `_create_citations` never looks at the
answer text and never validates: a ranked chunk with no content still yields
a citation with an empty excerpt (and its ordinal `[1]` nowhere in the
answer `"x"`). -/
theorem C1_counterexample : ¬ claimC1 ['x'] [emptyChunk] := by
  intro h
  have h0 := h 0 (mkCitation emptyChunk) rfl
  exact h0.1 rfl

/-- C1 (amended): the citation list is the ranked chunk list mapped
position-by-position through the field-copying constructor — exactly one
citation per ranked chunk, in rank order, with defaults (`0`, empty excerpt,
`0.0`) for absent fields; the answer text plays no role, so empty excerpts
and never-cited chunks still yield citations. -/
theorem C1_citations_amended (chunks : List ChunkDict) (i : Nat) :
    (create_citations chunks).length = chunks.length ∧
    (create_citations chunks)[i]? = chunks[i]?.map mkCitation := by
  constructor
  · induction chunks with
    | nil => rfl
    | cons c rest ih => simp [create_citations, ih]
  · induction chunks generalizing i with
    | nil => simp [create_citations]
    | cons c rest ih =>
      cases i with
      | zero => simp [create_citations]
      | succ n => simpa [create_citations] using ih n

/-- Embedding of `EmbedWorker._generate_embeddings`: one provider call per
chunk on `chunk["content"]`, sequential, aborting on the first failure with
the wrapped message; the response vector is appended with no validation,
no retry and no dimension check. -/
def generate_embeddings (provider : PyStr → Except String (List ℚ)) :
    List Page → Except String (List (List ℚ))
  | [] => Except.ok []
  | c :: rest =>
    match provider c.content with
    | Except.error e => Except.error ("Failed to generate embedding: " ++ e)
    | Except.ok v =>
      match generate_embeddings provider rest with
      | Except.error e => Except.error e
      | Except.ok vs => Except.ok (v :: vs)

/-- An `EmbedJob`: a document id and the chunk dicts to embed. -/
structure EmbedJobModel where
  document_id : Nat
  chunks : List Page

/-- Embedding of `EmbedWorker._process_embed_job`: generate embeddings for
all chunks, store them, then mark the document `embedded`; any exception is
answered by marking the document `failed` and re-raising. The first
component records the status updates issued, the second the outcome. -/
def process_embed_job (provider : PyStr → Except String (List ℚ))
    (store : Nat → List Page → List (List ℚ) → Except String Unit)
    (job : EmbedJobModel) : List (Nat × String) × Except String Unit :=
  match generate_embeddings provider job.chunks with
  | Except.error e => ([(job.document_id, "failed")], Except.error e)
  | Except.ok embs =>
    match store job.document_id job.chunks embs with
    | Except.error e => ([(job.document_id, "failed")], Except.error e)
    | Except.ok _ => ([(job.document_id, "embedded")], Except.ok ())

theorem generate_embeddings_ok_pointwise
    (provider : PyStr → Except String (List ℚ)) :
    ∀ (chunks : List Page) (embs : List (List ℚ)),
      generate_embeddings provider chunks = Except.ok embs →
      embs.length = chunks.length ∧
      ∀ (i : Nat) (c : Page), chunks[i]? = some c →
        ∃ v, embs[i]? = some v ∧ provider c.content = Except.ok v := by
  intro chunks
  induction chunks with
  | nil =>
    intro embs h
    simp only [generate_embeddings] at h
    cases h
    simp
  | cons c rest ih =>
    intro embs h
    rw [generate_embeddings] at h
    cases hp : provider c.content with
    | error e => rw [hp] at h; cases h
    | ok v =>
      rw [hp] at h
      cases hg : generate_embeddings provider rest with
      | error e => rw [hg] at h; cases h
      | ok vs =>
        rw [hg] at h
        cases h
        obtain ⟨hlen, hpt⟩ := ih vs hg
        refine ⟨by simp [hlen], ?_⟩
        intro i cc hcc
        cases i with
        | zero =>
          refine ⟨v, by simp, ?_⟩
          simp only [List.getElem?_cons_zero, Option.some_inj] at hcc
          rw [← hcc]; exact hp
        | succ n =>
          simp only [List.getElem?_cons_succ] at hcc ⊢
          exact hpt n cc hcc

theorem generate_embeddings_ok_all (provider : PyStr → Except String (List ℚ)) :
    ∀ (chunks : List Page) (embs : List (List ℚ)),
      generate_embeddings provider chunks = Except.ok embs →
      ∀ c ∈ chunks, ∃ v, provider c.content = Except.ok v := by
  intro chunks
  induction chunks with
  | nil => intro embs _ c hc; simp at hc
  | cons x rest ih =>
    intro embs h c hc
    rw [generate_embeddings] at h
    cases hp : provider x.content with
    | error e => rw [hp] at h; cases h
    | ok v =>
      rw [hp] at h
      cases hg : generate_embeddings provider rest with
      | error e => rw [hg] at h; cases h
      | ok vs =>
        rcases List.mem_cons.mp hc with h1 | h1
        · exact ⟨v, h1 ▸ hp⟩
        · exact ih vs hg c h1

theorem generate_embeddings_error_of_mem
    (provider : PyStr → Except String (List ℚ)) :
    ∀ (chunks : List Page) (c : Page), c ∈ chunks →
      (∃ e, provider c.content = Except.error e) →
      ∃ e2, generate_embeddings provider chunks = Except.error e2 := by
  intro chunks
  induction chunks with
  | nil => intro c hc; simp at hc
  | cons x rest ih =>
    intro c hc ⟨e, he⟩
    rw [generate_embeddings]
    cases hp : provider x.content with
    | error e1 => exact ⟨_, rfl⟩
    | ok v =>
      rcases List.mem_cons.mp hc with h1 | h1
      · rw [h1] at he; rw [he] at hp; cases hp
      · obtain ⟨e2, he2⟩ := ih c h1 ⟨e, he⟩
        rw [he2]
        exact ⟨e2, rfl⟩

/-- C3: the document is marked `embedded` only when embedding generation
succeeded for every chunk of the job and the batch store succeeded; if the
provider fails on any chunk, the run issues only the `failed` status and
never `embedded`. -/
theorem C3_embedded_means_all_persisted
    (provider : PyStr → Except String (List ℚ))
    (store : Nat → List Page → List (List ℚ) → Except String Unit)
    (job : EmbedJobModel) :
    ((job.document_id, "embedded") ∈ (process_embed_job provider store job).1 →
      (∃ embs, generate_embeddings provider job.chunks = Except.ok embs ∧
        store job.document_id job.chunks embs = Except.ok ()) ∧
      (process_embed_job provider store job).2 = Except.ok () ∧
      ∀ c ∈ job.chunks, ∃ v, provider c.content = Except.ok v) ∧
    ((∃ c ∈ job.chunks, ∃ e, provider c.content = Except.error e) →
      (process_embed_job provider store job).1 = [(job.document_id, "failed")] ∧
      (job.document_id, "embedded") ∉ (process_embed_job provider store job).1) := by
  constructor
  · intro hmem
    cases hg : generate_embeddings provider job.chunks with
    | error e =>
      simp [process_embed_job, hg] at hmem
    | ok embs =>
      cases hs : store job.document_id job.chunks embs with
      | error e =>
        simp [process_embed_job, hg, hs] at hmem
      | ok u =>
        cases u
        refine ⟨⟨embs, rfl, hs⟩, ?_,
          generate_embeddings_ok_all provider job.chunks embs hg⟩
        simp [process_embed_job, hg, hs]
  · intro ⟨c, hc, he⟩
    obtain ⟨e2, he2⟩ :=
      generate_embeddings_error_of_mem provider job.chunks c hc he
    simp [process_embed_job, he2]

/-- A one-chunk input page used in concrete instantiations. -/
def embedPage0 : Page := ⟨0, ['h', 'i']⟩

/-- A provider whose call fails, e.g. a rate-limited API. -/
def failProvider : PyStr → Except String (List ℚ) :=
  fun _ => Except.error "rate limited"

/-- An always-succeeding store. -/
def okStore : Nat → List Page → List (List ℚ) → Except String Unit :=
  fun _ _ _ => Except.ok ()

/-- A one-chunk `EmbedJob` for document 7. -/
def embedJob0 : EmbedJobModel := ⟨7, [embedPage0]⟩

/-- Witness for C3: a failing provider call leaves the document `failed`
and never `embedded`. -/
theorem C3_embedded_means_all_persisted_witness :
    (process_embed_job failProvider okStore embedJob0).1 = [(7, "failed")] ∧
    (7, "embedded") ∉ (process_embed_job failProvider okStore embedJob0).1 :=
  (C3_embedded_means_all_persisted failProvider okStore embedJob0).2
    ⟨embedPage0, by simp [embedJob0], "rate limited", rfl⟩

/-- Claim C5 as stated (over the rational-vector model; non-finite floats
are not representable here, so the refuted conjuncts are the all-zero
rejection and the fixed 1536 dimension): every vector accepted by the
embedding generator is validated, hence not all-zero and of the configured
dimension. -/
def claimC5 : Prop :=
  ∀ (provider : PyStr → Except String (List ℚ)) (chunks : List Page)
    (embs : List (List ℚ)),
    generate_embeddings provider chunks = Except.ok embs →
    ∀ v ∈ embs, v.length = 1536 ∧ ∃ x ∈ v, x ≠ 0

/-- A provider that returns a 3-dimensional all-zero vector. -/
def zeroProvider : PyStr → Except String (List ℚ) :=
  fun _ => Except.ok [0, 0, 0]

/-- C5: the claim fails on the code. `_generate_embeddings` performs no
validation at all: the all-zero 3-dimensional vector returned by the
provider is accepted and passed on to storage unchanged. -/
theorem C5_counterexample : ¬ claimC5 := by
  intro h
  have h0 := h zeroProvider [embedPage0] [[0, 0, 0]] rfl [0, 0, 0] (by simp)
  have hlen := h0.1
  simp at hlen

/-- C5 (amended): no validation, no retry, no dimension check — the vector
recorded for each chunk is exactly the single response of the provider for
that chunk's content, whatever it is (all-zero vectors and arbitrary
dimensions included); a provider error on any chunk aborts the whole job
instead. -/
theorem C5_no_validation_amended (provider : PyStr → Except String (List ℚ))
    (chunks : List Page) (embs : List (List ℚ)) :
    generate_embeddings provider chunks = Except.ok embs →
    embs.length = chunks.length ∧
    ∀ (i : Nat) (c : Page), chunks[i]? = some c →
      ∃ v, embs[i]? = some v ∧ provider c.content = Except.ok v :=
  generate_embeddings_ok_pointwise provider chunks embs

/-- Witness for the amended C5: the all-zero vector is stored verbatim. -/
theorem C5_no_validation_amended_witness :
    ∃ v, ([[(0 : ℚ), 0, 0]])[0]? = some v ∧
      zeroProvider embedPage0.content = Except.ok v :=
  (C5_no_validation_amended zeroProvider [embedPage0] [[0, 0, 0]] rfl).2
    0 embedPage0 rfl

/-- The ClamAV client's `scan` call on the downloaded file:
either the call raises (`error`), or it returns a falsy result (`ok none`),
or it returns the `(status, virus_name)` entry for the file (`ok (some _)`). -/
structure ScanOutcome where
  result : Except String (Option (String × String))

/-- Embedding of `IngestWorker._virus_scan`: with no connected client, log a
warning (first component) and return; otherwise scan, raising
`"Virus detected: name"` on a `FOUND` status — but that raise happens inside
the same `try`, so the enclosing handler rewraps every failure, threat or
not, as the one generic `"Virus scan failed: ..."` exception. -/
def virus_scan (client : Option ScanOutcome) :
    Option String × Except String Unit :=
  match client with
  | none => (some "ClamAV not available, skipping virus scan", Except.ok ())
  | some sc =>
    match sc.result with
    | Except.error e => (none, Except.error ("Virus scan failed: " ++ e))
    | Except.ok none => (none, Except.ok ())
    | Except.ok (some (status, name)) =>
      if status = "FOUND" then
        (none, Except.error ("Virus scan failed: " ++ ("Virus detected: " ++ name)))
      else (none, Except.ok ())

/-- A scanner reporting a `FOUND` threat with the given virus name. -/
def threatScan (name : String) : ScanOutcome :=
  ⟨Except.ok (some ("FOUND", name))⟩

/-- A scanner whose `scan` call itself raises with the given message. -/
def failingScan (msg : String) : ScanOutcome := ⟨Except.error msg⟩

/-- Embedding of `IngestWorker._process_ingest_job`: download, virus-scan,
extract text, split into pages, then mark `ingested` and publish the embed
job; any exception marks the document `failed` and re-raises. Components:
status updates issued, embed jobs published, outcome. -/
def process_ingest_job (download : Except String Unit)
    (client : Option ScanOutcome) (extracted : Except String PyStr)
    (document_id : Nat) :
    List (Nat × String) × List (Nat × List Page) × Except String Unit :=
  match download with
  | Except.error e => ([(document_id, "failed")], [], Except.error e)
  | Except.ok _ =>
    match (virus_scan client).2 with
    | Except.error e => ([(document_id, "failed")], [], Except.error e)
    | Except.ok _ =>
      match extracted with
      | Except.error e =>
        ([(document_id, "failed")], [],
          Except.error ("Text extraction failed: " ++ e))
      | Except.ok text =>
        ([(document_id, "ingested")],
          [(document_id, split_text_into_pages text)], Except.ok ())

/-- Claim C6 as stated: an unreachable scanner only warns and the job
continues; a detected threat aborts the job with an error value
distinguishable from every ordinary scan failure (a dedicated
`VirusDetected` kind), the document is marked `failed` and no chunks are
produced. -/
def claimC6 : Prop :=
  ((virus_scan none).2 = Except.ok () ∧ (virus_scan none).1.isSome) ∧
  (∀ name msg : String,
    (virus_scan (some (threatScan name))).2 ≠
      (virus_scan (some (failingScan msg))).2) ∧
  (∀ (text : PyStr) (d : Nat) (name : String),
    (process_ingest_job (Except.ok ()) (some (threatScan name))
      (Except.ok text) d).1 = [(d, "failed")] ∧
    (process_ingest_job (Except.ok ()) (some (threatScan name))
      (Except.ok text) d).2.1 = [])

/-- C6: the claim fails on the code. There is no dedicated `VirusDetected`
error kind: a detected threat named `EICAR` produces exactly the same
generic exception value as an ordinary scan failure whose message happens
to be `"Virus detected: EICAR"` — both are the one wrapped
`"Virus scan failed: ..."` string. -/
theorem C6_counterexample : ¬ claimC6 := by
  intro h
  refine h.2.1 "EICAR" "Virus detected: EICAR" ?_
  show Except.error ("Virus scan failed: " ++ ("Virus detected: " ++ "EICAR")) =
    Except.error ("Virus scan failed: " ++ "Virus detected: EICAR")
  rfl

/-- C6 (amended): a scanner unreachable at connect time yields a warning and
the job proceeds to ingest normally; a detected threat aborts the run with
the generic exception `"Virus scan failed: Virus detected: name"` (the same
kind as any other scan failure, distinguishable only by message text), the
document is marked `failed`, and no embed job — hence no chunk — is
produced; an error during the scan call itself likewise fails the job. -/
theorem C6_virus_scan_amended (d : Nat) (text : PyStr) (name : String) :
    virus_scan none =
      (some "ClamAV not available, skipping virus scan", Except.ok ()) ∧
    process_ingest_job (Except.ok ()) none (Except.ok text) d =
      ([(d, "ingested")], [(d, split_text_into_pages text)], Except.ok ()) ∧
    process_ingest_job (Except.ok ()) (some (threatScan name))
        (Except.ok text) d =
      ([(d, "failed")], [],
        Except.error ("Virus scan failed: " ++ ("Virus detected: " ++ name))) ∧
    (∀ msg, process_ingest_job (Except.ok ()) (some (failingScan msg))
        (Except.ok text) d =
      ([(d, "failed")], [], Except.error ("Virus scan failed: " ++ msg))) := by
  refine ⟨rfl, rfl, ?_, ?_⟩
  · simp [process_ingest_job, virus_scan, threatScan]
  · intro msg
    simp [process_ingest_job, virus_scan, failingScan]

/-- An action taken by a worker's message loop, tagged by message index. -/
inductive Action where
  | ack (m : Nat)
  | nak (m : Nat)
  | logJobError (m : Nat)
  | logOuterError
deriving DecidableEq

/-- The `async for msg in subscription.messages` loop body shared by
`IngestWorker._process_jobs` and `QAWorker._process_jobs`, with Python local
variable semantics made explicit: `jobVar` is the local `job`, assigned only
by a successful decode and read by the `except` handler's logging call.
When that handler runs with `job` still unassigned (a decode failure before
any successful decode), the logging line itself raises and the loop aborts
before `msg.nak()` — the `true` flag records that escaping exception. -/
def processLoopAux {J : Type} (decode : Nat → Except String J)
    (handler : J → Except String Unit) :
    List Nat → Option J → List Action × Bool
  | [], _ => ([], false)
  | m :: rest, jobVar =>
    match decode m with
    | Except.ok j =>
      match handler j with
      | Except.ok _ =>
        (Action.ack m :: (processLoopAux decode handler rest (some j)).1,
          (processLoopAux decode handler rest (some j)).2)
      | Except.error _ =>
        (Action.logJobError m :: Action.nak m ::
            (processLoopAux decode handler rest (some j)).1,
          (processLoopAux decode handler rest (some j)).2)
    | Except.error _ =>
      match jobVar with
      | some j =>
        (Action.logJobError m :: Action.nak m ::
            (processLoopAux decode handler rest (some j)).1,
          (processLoopAux decode handler rest (some j)).2)
      | none => ([], true)

/-- A worker's `_process_jobs`: the subscription loop wrapped in the outer
`try/except` that catches anything escaping the loop and logs it, so the
call itself never raises (second component always `none`). -/
def process_jobs {J : Type} (decode : Nat → Except String J)
    (handler : J → Except String Unit) (msgs : List Nat) :
    List Action × Option String :=
  if (processLoopAux decode handler msgs none).2 then
    ((processLoopAux decode handler msgs none).1 ++ [Action.logOuterError], none)
  else ((processLoopAux decode handler msgs none).1, none)

/-- The fields of `IngestJob` (`app/models/jobs.py`). -/
structure IngestJobModel where
  document_id : Nat
  file_path : PyStr
  mime_type : PyStr
  file_size : Nat

/-- The fields of `QAJob` used by the QA worker. -/
structure QAJobModel where
  query : PyStr
  max_results : Nat
  temperature : ℚ

/-- `IngestWorker._process_jobs`. -/
def ingest_process_jobs (decode : Nat → Except String IngestJobModel)
    (handler : IngestJobModel → Except String Unit) (msgs : List Nat) :
    List Action × Option String :=
  process_jobs decode handler msgs

/-- `QAWorker._process_jobs`. -/
def qa_process_jobs (decode : Nat → Except String QAJobModel)
    (handler : QAJobModel → Except String Unit) (msgs : List Nat) :
    List Action × Option String :=
  process_jobs decode handler msgs

/-- Message `m` was processable: it decodes and its handler succeeds. -/
def jobSuccess {J : Type} (decode : Nat → Except String J)
    (handler : J → Except String Unit) (m : Nat) : Prop :=
  ∃ j, decode m = Except.ok j ∧ handler j = Except.ok ()

/-- A decode that always fails: the first delivered message carries an
undecodable payload. -/
def badIngestDecode : Nat → Except String IngestJobModel :=
  fun _ => Except.error "invalid job payload"

/-- A handler that always succeeds. -/
def okIngestHandler : IngestJobModel → Except String Unit :=
  fun _ => Except.ok ()

/-- C7: evaluation at the failing input. When the first delivered message
fails to decode, the `except` handler's `self.logger.log_job_error(job.document_id, e)`
reads the never-assigned local `job` and raises, so `msg.nak()` is never
reached: the loop aborts into the outer handler, and the failed message is
neither acked nor naked — the claim that every failed delivery is naked
does not hold on this input. -/
theorem C7_first_bad_message_not_naked :
    ingest_process_jobs badIngestDecode okIngestHandler [0] =
      ([Action.logOuterError], none) ∧
    Action.nak 0 ∉ (ingest_process_jobs badIngestDecode okIngestHandler [0]).1 ∧
    Action.ack 0 ∉ (ingest_process_jobs badIngestDecode okIngestHandler [0]).1 := by
  refine ⟨rfl, by decide, by decide⟩

theorem processLoopAux_ack_success {J : Type} (decode : Nat → Except String J)
    (handler : J → Except String Unit) :
    ∀ (msgs : List Nat) (jobVar : Option J) (m : Nat),
      Action.ack m ∈ (processLoopAux decode handler msgs jobVar).1 →
      jobSuccess decode handler m := by
  intro msgs
  induction msgs with
  | nil => intro jobVar m h; simp [processLoopAux] at h
  | cons m2 rest ih =>
    intro jobVar m h
    cases hd : decode m2 with
    | ok j =>
      cases hh : handler j with
      | ok u =>
        simp only [processLoopAux, hd, hh, List.mem_cons] at h
        rcases h with h1 | h1
        · cases h1
          exact ⟨j, hd, by cases u; exact hh⟩
        · exact ih (some j) m h1
      | error e =>
        simp only [processLoopAux, hd, hh, List.mem_cons] at h
        rcases h with h1 | h1 | h1
        · cases h1
        · cases h1
        · exact ih (some j) m h1
    | error e =>
      cases jobVar with
      | some j =>
        simp only [processLoopAux, hd, List.mem_cons] at h
        rcases h with h1 | h1 | h1
        · cases h1
        · cases h1
        · exact ih (some j) m h1
      | none => simp [processLoopAux, hd] at h

theorem processLoopAux_failed_reported {J : Type}
    (decode : Nat → Except String J) (handler : J → Except String Unit) :
    ∀ (msgs : List Nat) (jobVar : Option J) (m : Nat), m ∈ msgs →
      ¬ jobSuccess decode handler m →
      Action.nak m ∈ (processLoopAux decode handler msgs jobVar).1 ∨
      (processLoopAux decode handler msgs jobVar).2 = true := by
  intro msgs
  induction msgs with
  | nil => intro jobVar m h; simp at h
  | cons m2 rest ih =>
    intro jobVar m hm hfail
    rcases List.mem_cons.mp hm with h1 | h1
    · subst h1
      cases hd : decode m with
      | ok j =>
        cases hh : handler j with
        | ok u => exact absurd ⟨j, hd, by cases u; exact hh⟩ hfail
        | error e => left; simp [processLoopAux, hd, hh]
      | error e =>
        cases jobVar with
        | some j => left; simp [processLoopAux, hd]
        | none => right; simp [processLoopAux, hd]
    · cases hd : decode m2 with
      | ok j =>
        cases hh : handler j with
        | ok u =>
          rcases ih (some j) m h1 hfail with h2 | h2
          · left; simp [processLoopAux, hd, hh, h2]
          · right; simp [processLoopAux, hd, hh, h2]
        | error e =>
          rcases ih (some j) m h1 hfail with h2 | h2
          · left; simp [processLoopAux, hd, hh, h2]
          · right; simp [processLoopAux, hd, hh, h2]
      | error e =>
        cases jobVar with
        | some j =>
          rcases ih (some j) m h1 hfail with h2 | h2
          · left; simp [processLoopAux, hd, h2]
          · right; simp [processLoopAux, hd, h2]
        | none => right; simp [processLoopAux, hd]

/-- C8: the QA job loop never lets a failure escape into the bus: the outer
handler absorbs everything (no escaping exception, second component `none`);
a message is acked only if its decode and its handler both succeeded; and
every delivered message that is not processable is answered with a `nak` or
with the outer logged failure report — never an unhandled exception. -/
theorem C8_qa_failures_never_escape (decode : Nat → Except String QAJobModel)
    (handler : QAJobModel → Except String Unit) (msgs : List Nat) :
    (qa_process_jobs decode handler msgs).2 = none ∧
    (∀ m, Action.ack m ∈ (qa_process_jobs decode handler msgs).1 →
      jobSuccess decode handler m) ∧
    (∀ m ∈ msgs, ¬ jobSuccess decode handler m →
      Action.nak m ∈ (qa_process_jobs decode handler msgs).1 ∨
      Action.logOuterError ∈ (qa_process_jobs decode handler msgs).1) := by
  refine ⟨?_, ?_, ?_⟩
  · rw [qa_process_jobs, process_jobs]
    by_cases hb : (processLoopAux decode handler msgs none).2 <;> simp [hb]
  · intro m h
    rw [qa_process_jobs, process_jobs] at h
    by_cases hb : (processLoopAux decode handler msgs none).2
    · rw [if_pos hb] at h
      simp only [List.mem_append, List.mem_singleton] at h
      rcases h with h1 | h1
      · exact processLoopAux_ack_success decode handler msgs none m h1
      · cases h1
    · rw [if_neg hb] at h
      exact processLoopAux_ack_success decode handler msgs none m h
  · intro m hm hfail
    rw [qa_process_jobs, process_jobs]
    rcases processLoopAux_failed_reported decode handler msgs none m hm hfail
      with h1 | h1
    · by_cases hb : (processLoopAux decode handler msgs none).2
      · rw [if_pos hb]; left; simp [h1]
      · rw [if_neg hb]; left; exact h1
    · rw [if_pos h1]; right; simp

/-- A QA decode that always succeeds with a fixed job. -/
def qaDecodeOk : Nat → Except String QAJobModel :=
  fun _ => Except.ok ⟨['q'], 10, 1⟩

/-- A QA handler whose retrieval stage fails. -/
def qaHandlerFail : QAJobModel → Except String Unit :=
  fun _ => Except.error "Failed to retrieve chunks: boom"

/-- Witness for C8: a job whose handler fails is naked or outer-logged. -/
theorem C8_qa_failures_never_escape_witness :
    Action.nak 0 ∈ (qa_process_jobs qaDecodeOk qaHandlerFail [0]).1 ∨
    Action.logOuterError ∈ (qa_process_jobs qaDecodeOk qaHandlerFail [0]).1 :=
  (C8_qa_failures_never_escape qaDecodeOk qaHandlerFail [0]).2.2 0 (by decide)
    (by
      intro hs
      obtain ⟨j, hj, hh⟩ := hs
      simp [qaHandlerFail] at hh)
